import Mathlib

/-!
# Verification of the prez-pkglog Event Log Engine

A shallow embedding of the core logic of `prez_pkglog` (the `PackageLogger`
event-log engine in `logger.py`, the scope resolution in `config.py`, and the
downloads monitor in `monitors/downloads.py`), together with proofs of the
behavioural properties stated in the specification.

Conventions of the embedding:
* JSON records are modelled by the structure `Rec`.  Records written by the
  logger always carry `name`, `manager`, `action`, `date`, `removed` and
  `scope`; the `date` field is kept as `Option String` because `query`'s
  `since` filter must be analysed on stored records whose date entry is
  missing or malformed.  A missing `removed` key in a stored record is
  indistinguishable from `false` in the source (every read site uses
  `rec.get("removed", False)`), so `removed` is a plain `Bool`.
* Python string operations (`str.strip`, `str.lower`, `Path.suffix`,
  `str.split`) are embedded as executable functions on `List Char` / `String`.
* File-system effects of the atomic-write discipline are embedded as a small
  trace language `FsOp` with an interpreter over a map from paths to contents.
* Exception behaviour is embedded with `Except PyErr`; a `try/except` block of
  the source becomes an explicit `match` on the inner `Except` computation.
-/

namespace PkgLog

/-- Python whitespace characters recognised by `str.strip()` (ASCII range). -/
def isPyWs (c : Char) : Bool :=
  c = ' ' || c = '\t' || c = '\n' || c = '\r' || c = '\x0b' || c = '\x0c'

/-- `str.strip()` on a character list: drop whitespace from both ends. -/
def pyStripL (l : List Char) : List Char :=
  ((l.dropWhile isPyWs).reverse.dropWhile isPyWs).reverse

/-- Embedding of Python `str.strip()`. -/
def pyStrip (s : String) : String := ⟨pyStripL s.data⟩

/-- A stored package record (one JSON object of `packages.json`).
`dateRemoved` is the `date_removed` key, set only when an upsert closes an
open install record.  `metadata` is the open metadata mapping; only the keys
written by the downloads monitor are relevant to the claims, so values are a
sum of strings and integers. -/
structure Rec where
  name : String
  manager : String
  action : String
  date : Option String
  removed : Bool
  scope : String
  version : Option String := none
  metadata : List (String × (String ⊕ Int)) := []
  dateRemoved : Option String := none
  deriving Repr, DecidableEq

/-- The match test of `_upsert_json_and_toml`'s reverse scan: a stored record
is an *open* record for `entry` when its `name` and `manager` agree with the
incoming entry and its `removed` flag is false. -/
def isOpenMatch (entry rec : Rec) : Bool :=
  rec.name = entry.name && rec.manager = entry.manager && !rec.removed

/-- Index of the **last** record of `data` matching `isOpenMatch entry`
(the source scans `range(len(data)-1, -1, -1)` and breaks at the first hit,
i.e. picks the greatest matching index). -/
def findLastOpenIdx (entry : Rec) : List Rec → Option Nat
  | [] => none
  | r :: rs =>
    match findLastOpenIdx entry rs with
    | some i => some (i + 1)
    | none => if isOpenMatch entry r then some 0 else none

/-- The in-place mutation applied to a matched open record: the source sets
`removed = True`, `action = "remove"`, `date_removed = entry.get("date")`. -/
def closeRec (entry rec : Rec) : Rec :=
  { rec with removed := true, action := "remove", dateRemoved := entry.date }

/-- The upsert policy of `_upsert_json_and_toml` (lines 129–148 of
`logger.py`): a removal entry closes the most recent matching open record in
place, or is appended when no open record exists; any other entry is always
appended. -/
def upsert (data : List Rec) (entry : Rec) : List Rec :=
  if entry.removed then
    match findLastOpenIdx entry data with
    | some i => data.set i (closeRec entry (data.getD i entry))
    | none => data ++ [entry]
  else
    data ++ [entry]

/-- The entry constructed by `log_package` from a validated call: the name is
stripped, `removed` is derived as `action == "remove"`, and falsy `version` /
`metadata` arguments are omitted. -/
def mkEntry (name manager action date scope : String)
    (version : Option String) (metadata : List (String × (String ⊕ Int))) : Rec :=
  { name := pyStrip name
    manager := manager
    action := action
    date := some date
    removed := action = "remove"
    scope := scope
    version := if version = some "" then none else version
    metadata := metadata }

/-- One piece of the mirror (TOML) store as written by
`_rewrite_toml_from_json_data`: either the `# --REMOVED--` marker line or the
serialization of one record (`toml.dumps(rec)` followed by a newline).  The
file content is the concatenation of the rendered chunks. -/
inductive Chunk where
  | marker : Chunk
  | record : Rec → Chunk
  deriving Repr, DecidableEq

/-- The chunks emitted for a single record: the marker line precisely when the
record's `removed` flag is set, then the record itself. -/
def chunksOfRec (r : Rec) : List Chunk :=
  (if r.removed then [Chunk.marker] else []) ++ [Chunk.record r]

/-- `_rewrite_toml_from_json_data`: the mirror store is rebuilt from scratch
from the full JSON sequence. -/
def tomlChunks (data : List Rec) : List Chunk :=
  data.flatMap chunksOfRec

/-- The records serialized in a mirror-store chunk sequence. -/
def chunkRecords (cs : List Chunk) : List Rec :=
  cs.filterMap fun c => match c with | Chunk.marker => none | Chunk.record r => some r

/-- The pair of persistent stores owned by the engine: `packages.json`
(parsed) and `packages.toml` (as its chunk sequence). -/
structure Store where
  json : List Rec
  toml : List Chunk
  deriving Repr, DecidableEq

/-- The store state after a fresh `_ensure_directories`: empty JSON sequence,
empty TOML file. -/
def emptyStore : Store := { json := [], toml := [] }

/-- `log_package` on a fault-free run: validation (warn and drop when the name
is empty after stripping), then `_upsert_json_and_toml` (upsert the JSON
sequence and, when the `toml` module is importable, rewrite the mirror store
completely from the updated sequence).  Returns the new store together with
the warnings logged. -/
def logPackage (tomlAvail : Bool) (st : Store) (name manager action date scope : String)
    (version : Option String) (metadata : List (String × (String ⊕ Int))) :
    Store × List String :=
  if pyStrip name = "" then
    (st, ["Warning: Invalid package name: " ++ name])
  else
    let entry := mkEntry name manager action date scope version metadata
    let json' := upsert st.json entry
    let toml' := if tomlAvail then tomlChunks json' else st.toml
    ({ json := json', toml := toml' }, [])

/-- A calendar date, the result of `datetime.fromisoformat(...).date()`. -/
structure PyDate where
  year : Nat
  month : Nat
  day : Nat
  deriving Repr, DecidableEq

/-- Python `date` comparison `a <= b` (lexicographic on year, month, day). -/
def PyDate.le (a b : PyDate) : Bool :=
  a.year < b.year ||
    (a.year = b.year && (a.month < b.month || (a.month = b.month && a.day ≤ b.day)))

/-- Gregorian leap-year rule used by `datetime` for day-of-month validation. -/
def isLeap (y : Nat) : Bool := (y % 4 = 0 && y % 100 ≠ 0) || y % 400 = 0

/-- Days in a month, as validated by `datetime`. -/
def daysInMonth (y m : Nat) : Nat :=
  if m = 2 then (if isLeap y then 29 else 28)
  else if m = 4 || m = 6 || m = 9 || m = 11 then 30
  else 31

/-- Decimal value of an ASCII digit, `none` on any other character. -/
def digitVal (c : Char) : Option Nat :=
  if c.isDigit then some (c.toNat - 48) else none

/-- Two-digit decimal field. -/
def twoDigits (a b : Char) : Option Nat := do
  let x ← digitVal a
  let y ← digitVal b
  pure (x * 10 + y)

/-- The time tail accepted after the date part: empty, or one separator
character (any character, as in `datetime.fromisoformat`) followed by
`HH`, `HH:MM` or `HH:MM:SS` — the shapes produced by
`datetime.isoformat(timespec=...)`; the logger always writes
`timespec="seconds"`. -/
def parseTimeTail (l : List Char) : Option Unit :=
  match l with
  | [] => some ()
  | _sep :: rest =>
    match rest with
    | [h1, h2] => do
      let h ← twoDigits h1 h2
      if h ≤ 23 then some () else none
    | [h1, h2, ':', m1, m2] => do
      let h ← twoDigits h1 h2
      let m ← twoDigits m1 m2
      if h ≤ 23 && m ≤ 59 then some () else none
    | [h1, h2, ':', m1, m2, ':', s1, s2] => do
      let h ← twoDigits h1 h2
      let m ← twoDigits m1 m2
      let s ← twoDigits s1 s2
      if h ≤ 23 && m ≤ 59 && s ≤ 59 then some () else none
    | _ => none

/-- `datetime.fromisoformat(s).date()` on the ISO shapes emitted by this
program (`YYYY-MM-DD` with an optional time-of-day tail): `none` models the
`ValueError` raised on a malformed string. -/
def parseIsoDate (l : List Char) : Option PyDate :=
  match l with
  | y1 :: y2 :: y3 :: y4 :: '-' :: m1 :: m2 :: '-' :: d1 :: d2 :: rest => do
    let a ← digitVal y1
    let b ← digitVal y2
    let c ← digitVal y3
    let d ← digitVal y4
    let y := ((a * 10 + b) * 10 + c) * 10 + d
    let m ← twoDigits m1 m2
    let dd ← twoDigits d1 d2
    if 1 ≤ y && 1 ≤ m && m ≤ 12 && 1 ≤ dd && dd ≤ daysInMonth y m then do
      let _ ← parseTimeTail rest
      pure { year := y, month := m, day := dd }
    else none
  | _ => none

/-- `datetime.fromisoformat(e.get("date")).date()`: a missing `date` key
gives `fromisoformat(None)`, a `TypeError`; both failure modes are `none`. -/
def pyFromIsoDate : Option String → Option PyDate
  | none => none
  | some s => parseIsoDate s.data

/-- Whether `needle` starts `hay`. -/
def startsWithL : List Char → List Char → Bool
  | [], _ => true
  | _ :: _, [] => false
  | a :: as, b :: bs => a = b && startsWithL as bs

/-- Python's substring test `needle in hay`, by scanning every tail. -/
def containsSubL (needle : List Char) : List Char → Bool
  | [] => startsWithL needle []
  | b :: bs => startsWithL needle (b :: bs) || containsSubL needle bs

/-- Python's substring test `needle in hay`. -/
def pyIn (needle hay : String) : Bool := containsSubL needle.data hay.data

/-- ASCII lower-casing of a character list (`str.lower()` on the ASCII
range). -/
def lowerL (l : List Char) : List Char := l.map Char.toLower

/-- Embedding of Python `str.lower()`. -/
def pyLower (s : String) : String := ⟨lowerL s.data⟩

/-- The `since` comprehension of `query`: evaluated left to right, failing at
the first record whose `date` does not parse (the raised error discards the
whole comprehension).  Keeps records whose date is on or after `since`. -/
def sinceFilter (since : PyDate) : List Rec → Option (List Rec)
  | [] => some []
  | e :: es => do
    let d ← pyFromIsoDate e.date
    let rest ← sinceFilter since es
    if since.le d then pure (e :: rest) else pure rest

/-- The `name` and `manager` filter steps of `query` (lines 243–247 of
`logger.py`), applied before the `since` comprehension.  A `name` or
`manager` argument that is the empty string is falsy in Python, so the
corresponding filter is skipped. -/
def preFiltered (data : List Rec) (nameF managerF : Option String) : List Rec :=
  let r1 := match nameF with
    | some n => if n = "" then data else data.filter fun e => pyIn (pyLower n) (pyLower e.name)
    | none => data
  match managerF with
  | some m => if m = "" then r1 else r1.filter fun e => e.manager = m
  | none => r1

/-- The filtering pipeline of `query` (lines 240–254 of `logger.py`),
returning `none` when the `since` comprehension raises. -/
def queryGo (data : List Rec) (nameF managerF : Option String) (since : Option PyDate) :
    Option (List Rec) :=
  match since with
  | some d => sinceFilter d (preFiltered data nameF managerF)
  | none => some (preFiltered data nameF managerF)

/-- Public `query` on an intact store: the catch-all `except` turns any
raised error into the empty result. -/
def query (data : List Rec) (nameF managerF : Option String) (since : Option PyDate) :
    List Rec :=
  (queryGo data nameF managerF since).getD []

/-- The dictionary returned by `get_statistics`. -/
structure Stats where
  total : Nat
  installed : Nat
  removed : Nat
  downloads : Nat
  scope : String
  deriving Repr, DecidableEq

/-- `get_statistics` on an intact store (lines 262–276 of `logger.py`). -/
def getStatistics (data : List Rec) (scope : String) : Stats :=
  { total := data.length
    installed := data.countP fun e => !e.removed
    removed := data.countP fun e => e.removed
    downloads := data.countP fun e => e.manager = "download"
    scope := scope }

/-- `Config._validate_scope`: requested scope plus the effective user id give
the effective scope and the warnings logged.  Only a system request by a
non-root process is altered, with a logged warning. -/
def validateScope (requested : String) (euid : Nat) : String × List String :=
  if requested = "system" then
    if euid ≠ 0 then
      ("user",
        ["System scope selected but process lacks root privileges, falling back to user scope."])
    else ("system", [])
  else (requested, [])

/-- `PackageLogger._setup_paths`: the storage root derived from the effective
scope (`is_system_scope` is `scope == "system"`). -/
def dataDirFor (scope : String) (home : String) : String :=
  if scope = "system" then "/var/log/prez-pkglog"
  else home ++ "/.local/share/prez-pkglog"

/-- Python `str.split(",")` on a character list: `""` yields `[""]`, and
every comma starts a new segment. -/
def splitOnCommaL : List Char → List (List Char)
  | [] => [[]]
  | c :: rest =>
    if c = ',' then [] :: splitOnCommaL rest
    else
      match splitOnCommaL rest with
      | [] => [[c]]
      | seg :: segs => (c :: seg) :: segs

/-- The extension allow-set built by `DownloadsEventHandler._log_download`:
split the configured string on commas and normalise each piece to
`"." + piece.strip().lstrip(".")`.  The configured pieces are **not**
lower-cased. -/
def parseExtensions (extStr : String) : List String :=
  (splitOnCommaL extStr.data).map fun e => "." ++ String.mk ((pyStripL e).dropWhile (· = '.'))

/-- `Path.name` on a POSIX path without trailing separators: the component
after the last `/`. -/
def pathNameL (l : List Char) : List Char :=
  ((l.reverse).takeWhile (· ≠ '/')).reverse

/-- `Path.suffix` of a final path component, following CPython's rule: the
substring from the last dot, provided that dot is neither the first nor the
last character of the name; otherwise the empty string. -/
def pathSuffixL (name : List Char) : List Char :=
  match name.reverse.drop ((name.reverse.takeWhile (· ≠ '.')).length) with
  | [] => []
  | _ :: before =>
    if before = [] then []
    else if name.reverse.takeWhile (· ≠ '.') = [] then []
    else '.' :: (name.reverse.takeWhile (· ≠ '.')).reverse

/-- Embedding of `Path(file_path).name`. -/
def pathName (p : String) : String := ⟨pathNameL p.data⟩

/-- Embedding of `Path(file_path).suffix`. -/
def pathSuffix (p : String) : String := ⟨pathSuffixL (pathNameL p.data)⟩

/-- `DownloadsEventHandler._log_download` (lines 109–137 of `downloads.py`):
compare the lower-cased file suffix against the configured allow-set; on a
match, log a `"download"`/`"install"` event whose metadata holds the file
path, the stat size (0 with a logged warning when `stat` raised `OSError`,
modelled by `statSize = none`) and the lower-cased suffix; otherwise do
nothing. -/
def logDownload (tomlAvail : Bool) (extStr : String) (filePath : String)
    (statSize : Option Nat) (st : Store) (date scope : String) : Store × List String :=
  if pyLower (pathSuffix filePath) ∈ parseExtensions extStr then
    let fileSize : Int := (statSize.getD 0 : Nat)
    let warns := if statSize.isNone then
      ["Could not get file size for " ++ filePath] else []
    let res := logPackage tomlAvail st (pathName filePath) "download" "install" date scope none
      [("file_path", Sum.inl filePath), ("file_size", Sum.inr fileSize),
       ("file_type", Sum.inl (pyLower (pathSuffix filePath)))]
    (res.1, warns ++ res.2)
  else (st, [])

/-- A primitive file-system effect of the write paths: create/truncate a file
with given content, append to an open file, or rename (`Path.replace`, an
atomic overwriting rename on POSIX). -/
inductive FsOp where
  | write : String → String → FsOp
  | append : String → String → FsOp
  | rename : String → String → FsOp
  deriving Repr, DecidableEq

/-- File-system state: contents by path. -/
def Fs : Type := String → Option String

/-- Interpreter for one primitive effect. -/
def applyOp (fs : Fs) : FsOp → Fs
  | FsOp.write p c => fun q => if q = p then some c else fs q
  | FsOp.append p c => fun q => if q = p then some ((fs p).getD "" ++ c) else fs q
  | FsOp.rename src dst => fun q =>
      if q = dst then fs src else if q = src then none else fs q

/-- Run a trace of effects. -/
def runOps (fs : Fs) : List FsOp → Fs
  | [] => fs
  | op :: ops => runOps (applyOp fs op) ops

/-- The temporary path used by both write paths.  `_atomic_write` computes
`path.with_suffix(path.suffix + ".tmp")` and `_write_json_streaming` computes
`json_file.with_suffix(".json.tmp")`; on the engine's `*.json` / `*.toml`
targets both equal the target path with `".tmp"` appended. -/
def tmpPath (p : String) : String := p ++ ".tmp"

/-- The effect trace of `_atomic_write(path, content)`: write the full
content to the temporary sibling, then rename it over the target. -/
def atomicWriteOps (path content : String) : List FsOp :=
  [FsOp.write (tmpPath path) content, FsOp.rename (tmpPath path) path]

/-- The pieces streamed by `_write_json_streaming`: `"[\n"`, each serialized
item with `",\n"` between consecutive items, then `"\n]"`.  `dumpItem`
abstracts `json.dump(item, f, indent=2)`. -/
def streamingPieces (dumpItem : Rec → String) : List Rec → List String
  | [] => []
  | [r] => [dumpItem r]
  | r :: rs => dumpItem r :: ",\n" :: streamingPieces dumpItem rs

/-- The effect trace of `_write_json_streaming(data)`: open the temporary
file for writing (truncating it), stream the pieces, then rename over the
target. -/
def streamingWriteOps (dumpItem : Rec → String) (jsonFile : String) (data : List Rec) :
    List FsOp :=
  FsOp.write (tmpPath jsonFile) "" ::
    (("[\n" :: streamingPieces dumpItem data) ++ ["\n]"]).map (FsOp.append (tmpPath jsonFile)) ++
    [FsOp.rename (tmpPath jsonFile) jsonFile]

/-- Concatenation of a list of written pieces. -/
def concatAll : List String → String
  | [] => ""
  | s :: rest => s ++ concatAll rest

/-- The full streamed content. -/
def streamedContent (dumpItem : Rec → String) (data : List Rec) : String :=
  concatAll (("[\n" :: streamingPieces dumpItem data) ++ ["\n]"])

/-- The JSON write step of `_upsert_json_and_toml` / `_append_json`: the
streaming path for more than 1000 records, the plain atomic path otherwise
(`dumpAll` abstracts `json.dumps(data, indent=2)`). -/
def jsonWriteOps (dumpAll : List Rec → String) (dumpItem : Rec → String)
    (jsonFile : String) (data : List Rec) : List FsOp :=
  if data.length > 1000 then streamingWriteOps dumpItem jsonFile data
  else atomicWriteOps jsonFile (dumpAll data)

/-- The content of the target after the write trace completes. -/
def jsonFinalContent (dumpAll : List Rec → String) (dumpItem : Rec → String)
    (data : List Rec) : String :=
  if data.length > 1000 then streamedContent dumpItem data else dumpAll data

/-- The Python exception classes that can surface in the engine. -/
inductive PyErr where
  | osError : PyErr
  | valueError : PyErr
  | typeError : PyErr
  deriving Repr, DecidableEq

/-- The on-disk state of `packages.json` as seen through `json.loads`:
missing or zero-size, parsing to a record sequence, or present but
unparseable. -/
inductive JFile where
  | empty : JFile
  | good : List Rec → JFile
  | bad : JFile
  deriving Repr, DecidableEq

/-- Injectable storage faults: `OSError` on reads (including the lock-file
open and `stat`), on the structured-store write, on the mirror-store write,
on `mkdir`, on `chmod`, and on the initial store-file creation. -/
structure IoFaults where
  readFault : Bool := false
  writeFault : Bool := false
  tomlWriteFault : Bool := false
  mkdirFault : Bool := false
  chmodFault : Bool := false
  createFault : Bool := false
  deriving Repr, DecidableEq

/-- The engine's persistent state in the fault model. -/
structure EngineState where
  jsonFile : JFile
  tomlFile : List Chunk
  deriving Repr, DecidableEq

/-- The guarded read of `_upsert_json_and_toml` (lines 124–127): an
exists/size check precedes the parse, so a missing or zero-size file yields
the empty sequence without touching `json.loads`. -/
def loadJsonGuarded (f : IoFaults) (jf : JFile) : Except PyErr (List Rec) :=
  if f.readFault then throw PyErr.osError
  else match jf with
    | JFile.empty => pure []
    | JFile.good d => pure d
    | JFile.bad => throw PyErr.valueError

/-- The unguarded read of `query` / `get_statistics` (no exists/size check):
a missing file raises `OSError` from `read_text`, a zero-size file raises
`ValueError` from `json.loads("")`. -/
def loadJsonUnguarded (f : IoFaults) (jf : JFile) : Except PyErr (List Rec) :=
  if f.readFault then throw PyErr.osError
  else match jf with
    | JFile.empty => throw PyErr.valueError
    | JFile.good d => pure d
    | JFile.bad => throw PyErr.valueError

/-- `_rewrite_toml_from_json_data` in the fault model: skipped when the
`toml` module is unavailable; its **internal** catch-all swallows a write
fault, leaving the mirror file unchanged either way. -/
def rewriteTomlOp (tomlAvail : Bool) (f : IoFaults) (tomlFile : List Chunk)
    (data : List Rec) : List Chunk :=
  if tomlAvail && !f.tomlWriteFault then tomlChunks data else tomlFile

/-- `_upsert_json_and_toml` in the fault model: the whole read-upsert-write
cycle runs under one catch-all `except` that logs and leaves the caller
unharmed; on any fault before the JSON write completes, neither file has
changed. -/
def upsertJsonAndTomlOp (tomlAvail : Bool) (f : IoFaults) (st : EngineState)
    (entry : Rec) : EngineState × List String :=
  let inner : Except PyErr EngineState := do
    let data ← loadJsonGuarded f st.jsonFile
    let data2 := upsert data entry
    if f.writeFault then throw PyErr.osError
    else pure { jsonFile := JFile.good data2
                tomlFile := rewriteTomlOp tomlAvail f st.tomlFile data2 }
  match inner with
  | Except.ok s => (s, [])
  | Except.error _ => (st, ["Error updating log files"])

/-- Public `record` (`log_package`) in the fault model. -/
def recordOp (tomlAvail : Bool) (f : IoFaults) (st : EngineState)
    (name manager action date scope : String) (version : Option String)
    (metadata : List (String × (String ⊕ Int))) :
    Except PyErr (EngineState × List String) :=
  if pyStrip name = "" then
    Except.ok (st, ["Warning: Invalid package name: " ++ name])
  else
    Except.ok (upsertJsonAndTomlOp tomlAvail f st
      (mkEntry name manager action date scope version metadata))

/-- Public `query` in the fault model: the catch-all converts any raised
error — read fault, parse failure, or a `since` comprehension failure — into
the empty result. -/
def queryOp (f : IoFaults) (st : EngineState) (nameF managerF : Option String)
    (since : Option PyDate) : Except PyErr (List Rec) :=
  let inner : Except PyErr (List Rec) := do
    let data ← loadJsonUnguarded f st.jsonFile
    match queryGo data nameF managerF since with
    | some r => pure r
    | none => throw PyErr.valueError
  Except.ok (match inner with
    | Except.ok r => r
    | Except.error _ => [])

/-- The all-zero statistics returned by `get_statistics` on failure; the
scope is still populated. -/
def zeroStats (scope : String) : Stats :=
  { total := 0, installed := 0, removed := 0, downloads := 0, scope := scope }

/-- Public `get_statistics` in the fault model. -/
def statsOp (f : IoFaults) (st : EngineState) (scope : String) : Except PyErr Stats :=
  let inner : Except PyErr Stats := do
    let data ← loadJsonUnguarded f st.jsonFile
    pure (getStatistics data scope)
  Except.ok (match inner with
    | Except.ok s => s
    | Except.error _ => zeroStats scope)

/-- `__init__` / `_ensure_directories` in the fault model: `mkdir`, the
`chmod` calls and the initial store-file creation run with **no** enclosing
`try/except`, so a storage fault propagates to the caller. -/
def ensureDirectoriesOp (f : IoFaults) (st : EngineState) : Except PyErr EngineState := do
  if f.mkdirFault then throw PyErr.osError
  else if f.chmodFault then throw PyErr.osError
  else
    match st.jsonFile with
    | JFile.empty =>
      if f.createFault then throw PyErr.osError
      else pure { st with jsonFile := JFile.good [] }
    | _ => pure st

/-- Whether a primitive effect reads or writes the file at `p` at all. -/
def opTouches (p : String) : FsOp → Bool
  | FsOp.write q _ => q = p
  | FsOp.append q _ => q = p
  | FsOp.rename src dst => src = p || dst = p

/-- Whether a primitive effect writes the file at `target` **in place**
(create/truncate or append on that very path); a rename into the path is the
atomic switch and does not count. -/
def writesInPlace (target : String) : FsOp → Bool
  | FsOp.write q _ => q = target
  | FsOp.append q _ => q = target
  | FsOp.rename _ _ => false

/-- The `since` criterion on one record, defined only through the parsed
date: keep when the record's date is on or after `d`. -/
def sinceMatches (d : PyDate) (e : Rec) : Bool :=
  match pyFromIsoDate e.date with
  | some ed => d.le ed
  | none => false

/-- Modelled from the spec's words (§4.4 of the spec / claim C3), for
comparison against `query`: a record satisfies the given filters when the
name filter is a case-insensitive substring of its name, the manager filter
equals its manager exactly, and its date is on or after the `since` date. -/
def specMatches (nameF managerF : Option String) (since : Option PyDate) (e : Rec) : Bool :=
  (match nameF with
    | some n => pyIn (pyLower n) (pyLower e.name)
    | none => true) &&
  (match managerF with
    | some m => e.manager = m
    | none => true) &&
  (match since with
    | some d => sinceMatches d e
    | none => true)

/-- The record produced by a matching download notification. -/
def downloadEntry (filePath date scope : String) (statSize : Option Nat) : Rec :=
  mkEntry (pathName filePath) "download" "install" date scope none
    [("file_path", Sum.inl filePath),
     ("file_size", Sum.inr ((statSize.getD 0 : Nat) : Int)),
     ("file_type", Sum.inl (pyLower (pathSuffix filePath)))]

/-- First record of the three-record store of §8 of the spec. -/
def rFooLib : Rec :=
  { name := "foo-lib", manager := "dnf", action := "install"
    date := some "2024-01-01T00:00:00", removed := false, scope := "user" }

/-- Second record of the three-record store of §8 of the spec. -/
def rBarLib : Rec :=
  { name := "bar-lib", manager := "dnf", action := "remove"
    date := some "2024-01-02T00:00:00", removed := true, scope := "user" }

/-- Third record of the three-record store of §8 of the spec. -/
def rBazRpm : Rec :=
  { name := "baz.rpm", manager := "download", action := "install"
    date := some "2024-01-03T00:00:00", removed := false, scope := "user" }

/-- A stored record whose `date` entry is not an ISO timestamp. -/
def rBadDate : Rec :=
  { name := "bar", manager := "dnf", action := "install"
    date := some "not-a-date", removed := false, scope := "user" }

/-! ## Properties of the upsert scan -/

theorem findLastOpenIdx_none (entry : Rec) :
    ∀ (data : List Rec), findLastOpenIdx entry data = none →
      ∀ j, j < data.length → isOpenMatch entry (data.getD j entry) = false := by
  intro data
  induction data with
  | nil => intro _ j hj; simp at hj
  | cons r rs ih =>
    intro h j hj
    unfold findLastOpenIdx at h
    cases hfind : findLastOpenIdx entry rs with
    | some i => rw [hfind] at h; simp at h
    | none =>
      rw [hfind] at h
      cases hr : isOpenMatch entry r with
      | true => rw [hr] at h; simp at h
      | false =>
        cases j with
        | zero => simpa using hr
        | succ j' =>
          have : j' < rs.length := by simpa using hj
          simpa using ih hfind j' this

theorem findLastOpenIdx_some (entry : Rec) :
    ∀ (data : List Rec) (i : Nat), findLastOpenIdx entry data = some i →
      i < data.length ∧ isOpenMatch entry (data.getD i entry) = true ∧
        ∀ j, i < j → j < data.length → isOpenMatch entry (data.getD j entry) = false := by
  intro data
  induction data with
  | nil => intro i h; simp [findLastOpenIdx] at h
  | cons r rs ih =>
    intro i h
    unfold findLastOpenIdx at h
    cases hfind : findLastOpenIdx entry rs with
    | some k =>
      rw [hfind] at h
      obtain ⟨hk, hmatch, habove⟩ := ih k hfind
      obtain rfl : k + 1 = i := by simpa using h
      refine ⟨by simpa using Nat.succ_lt_succ hk, by simpa using hmatch, ?_⟩
      intro j hij hj
      cases j with
      | zero => exact absurd hij (by omega)
      | succ j' =>
        have h1 : k < j' := Nat.lt_of_succ_lt_succ hij
        have h2 : j' < rs.length := by simpa using hj
        simpa using habove j' h1 h2
    | none =>
      rw [hfind] at h
      cases hr : isOpenMatch entry r with
      | true =>
        rw [hr] at h
        obtain rfl : 0 = i := by simpa using h
        refine ⟨Nat.succ_pos _, by simpa using hr, ?_⟩
        intro j hij hj
        cases j with
        | zero => exact absurd hij (by omega)
        | succ j' =>
          have h2 : j' < rs.length := by simpa using hj
          simpa using findLastOpenIdx_none entry rs hfind j' h2
      | false => rw [hr] at h; simp at h

/-- **C1.** For a `remove` event, `record` scans the stored sequence from
newest to oldest for the most recent record matching the event's name and
manager with `removed == false`; if one exists (index `i`), exactly that
record is mutated in place (`removed := true`, `action := "remove"`,
`date_removed :=` the event's timestamp) with its name, manager, original
timestamp and position unchanged and nothing appended; if none exists the
remove event is appended (itself flagged removed).  Any non-remove event is
always appended unchanged.  Consequently `install` followed by `remove` of
the same name/manager on an empty store yields exactly one record, removed,
with a removal timestamp and the original install timestamp. -/
theorem upsert_remove_policy (data : List Rec) (entry : Rec) :
    (entry.removed = true →
      (∀ i, findLastOpenIdx entry data = some i →
        i < data.length ∧
        isOpenMatch entry (data.getD i entry) = true ∧
        (∀ j, i < j → j < data.length → isOpenMatch entry (data.getD j entry) = false) ∧
        upsert data entry = data.set i (closeRec entry (data.getD i entry)) ∧
        (upsert data entry).length = data.length) ∧
      (findLastOpenIdx entry data = none →
        (∀ j, j < data.length → isOpenMatch entry (data.getD j entry) = false) ∧
        upsert data entry = data ++ [entry])) ∧
    (entry.removed = false → upsert data entry = data ++ [entry]) ∧
    (∀ r : Rec, (closeRec entry r).removed = true ∧ (closeRec entry r).action = "remove" ∧
      (closeRec entry r).dateRemoved = entry.date ∧ (closeRec entry r).name = r.name ∧
      (closeRec entry r).manager = r.manager ∧ (closeRec entry r).date = r.date) ∧
    (∀ (ta : Bool) (name manager d1 d2 scope : String), pyStrip name ≠ "" →
      ((logPackage ta (logPackage ta emptyStore name manager "install" d1 scope none []).1
          name manager "remove" d2 scope none []).1).json =
        [{ name := pyStrip name, manager := manager, action := "remove", date := some d1,
           removed := true, scope := scope, version := none, metadata := [],
           dateRemoved := some d2 }]) := by
  refine ⟨?_, ?_, ?_, ?_⟩
  · intro hrm
    refine ⟨?_, ?_⟩
    · intro i hfound
      obtain ⟨hi, hmatch, habove⟩ := findLastOpenIdx_some entry data i hfound
      refine ⟨hi, hmatch, habove, ?_, ?_⟩
      · simp [upsert, hrm, hfound]
      · simp [upsert, hrm, hfound]
    · intro hnone
      exact ⟨findLastOpenIdx_none entry data hnone, by simp [upsert, hrm, hnone]⟩
  · intro hrm
    simp [upsert, hrm]
  · intro r
    simp [closeRec]
  · intro ta name manager d1 d2 scope hname
    simp only [logPackage, emptyStore, hname, if_neg hname]
    simp [mkEntry, upsert, findLastOpenIdx, isOpenMatch, closeRec]

/-- Witness for C1: `install("pkg","mgrX")` then `remove("pkg","mgrX")` on an
empty store leaves exactly one record, closed, with the removal timestamp set
and the install timestamp preserved. -/
theorem upsert_remove_policy_witness :
    ((logPackage true
        (logPackage true emptyStore "pkg" "mgrX" "install" "2024-01-01T00:00:00" "user" none []).1
        "pkg" "mgrX" "remove" "2024-01-02T00:00:00" "user" none []).1).json =
      [{ name := "pkg", manager := "mgrX", action := "remove",
         date := some "2024-01-01T00:00:00", removed := true, scope := "user",
         version := none, metadata := [], dateRemoved := some "2024-01-02T00:00:00" }] :=
  (upsert_remove_policy [] rFooLib).2.2.2 true "pkg" "mgrX"
    "2024-01-01T00:00:00" "2024-01-02T00:00:00" "user" (by decide)

/-! ## Properties of the atomic write discipline -/

theorem runOps_append (l1 l2 : List FsOp) : ∀ fs : Fs, runOps fs (l1 ++ l2) = runOps (runOps fs l1) l2 := by
  induction l1 with
  | nil => intro fs; rfl
  | cons op ops ih => intro fs; simp [runOps, ih]

theorem applyOp_untouched (fs : Fs) (p : String) (op : FsOp) (h : opTouches p op = false) :
    applyOp fs op p = fs p := by
  cases op with
  | write q c =>
    have hqp : q ≠ p := by simpa [opTouches] using h
    simp [applyOp, Ne.symm hqp]
  | append q c =>
    have hqp : q ≠ p := by simpa [opTouches] using h
    simp [applyOp, Ne.symm hqp]
  | rename src dst =>
    have h' : src ≠ p ∧ dst ≠ p := by simpa [opTouches] using h
    simp [applyOp, Ne.symm h'.1, Ne.symm h'.2]

theorem runOps_untouched (p : String) :
    ∀ (ops : List FsOp) (fs : Fs), (∀ op ∈ ops, opTouches p op = false) →
      runOps fs ops p = fs p := by
  intro ops
  induction ops with
  | nil => intro fs _; rfl
  | cons op rest ih =>
    intro fs h
    have hop := h op (List.mem_cons_self op rest)
    have hrest : ∀ o ∈ rest, opTouches p o = false := fun o ho => h o (List.mem_cons_of_mem op ho)
    calc runOps fs (op :: rest) p = runOps (applyOp fs op) rest p := rfl
      _ = applyOp fs op p := ih (applyOp fs op) hrest
      _ = fs p := applyOp_untouched fs p op hop

theorem runOps_appendPieces (p : String) :
    ∀ (pieces : List String) (fs : Fs) (acc : String), fs p = some acc →
      runOps fs (pieces.map (FsOp.append p)) p = some (acc ++ concatAll pieces) := by
  intro pieces
  induction pieces with
  | nil => intro fs acc h; simpa [runOps, concatAll] using h
  | cons piece rest ih =>
    intro fs acc h
    have step : applyOp fs (FsOp.append p piece) p = some (acc ++ piece) := by
      simp [applyOp, h]
    calc runOps fs ((piece :: rest).map (FsOp.append p)) p
        = runOps (applyOp fs (FsOp.append p piece)) (rest.map (FsOp.append p)) p := rfl
      _ = some ((acc ++ piece) ++ concatAll rest) := ih _ _ step
      _ = some (acc ++ concatAll (piece :: rest)) := by
          simp [concatAll, String.append_assoc]

theorem tmpPath_ne (p : String) : tmpPath p ≠ p := by
  intro h
  have h1 := congrArg String.length h
  rw [tmpPath, String.length_append] at h1
  have h2 : ".tmp".length = 0 := by omega
  exact absurd h2 (by decide)

/-- Core staging lemma: a trace that only touches the temporary sibling and
then renames it over the target exposes, at the target path and at every
intermediate point, either the original content or the final content. -/
theorem staged_write (path content : String) (opsA : List FsOp) (fs : Fs)
    (hA : ∀ op ∈ opsA, opTouches path op = false)
    (htmp : runOps fs opsA (tmpPath path) = some content) :
    runOps fs (opsA ++ [FsOp.rename (tmpPath path) path]) path = some content ∧
    (∀ n, runOps fs ((opsA ++ [FsOp.rename (tmpPath path) path]).take n) path = fs path ∨
      runOps fs ((opsA ++ [FsOp.rename (tmpPath path) path]).take n) path = some content) := by
  have hfull : runOps fs (opsA ++ [FsOp.rename (tmpPath path) path]) path = some content := by
    rw [runOps_append]
    simp [runOps, applyOp, htmp]
  refine ⟨hfull, ?_⟩
  intro n
  by_cases hn : n ≤ opsA.length
  · left
    rw [List.take_append_of_le_length hn]
    exact runOps_untouched path _ fs fun op hop => hA op (List.take_subset n opsA hop)
  · right
    have hlen : (opsA ++ [FsOp.rename (tmpPath path) path]).length ≤ n := by
      simp only [List.length_append, List.length_cons, List.length_nil]
      omega
    rw [List.take_of_length_le hlen]
    exact hfull

theorem writesInPlace_of_touches (p : String) (op : FsOp) (h : opTouches p op = false) :
    writesInPlace p op = false := by
  cases op with
  | write q c => simpa [opTouches, writesInPlace] using h
  | append q c => simpa [opTouches, writesInPlace] using h
  | rename src dst => simp [writesInPlace]

/-- **C2.** Every structured-store write performed by `record` — the plain
path and the streaming path alike — serializes the full updated sequence to
the temporary sibling and then renames it over the target: no operation of
the trace writes or truncates the target in place, after the trace the
target holds the complete new content, and at every intermediate point of
the trace the target holds either the complete previous content or the
complete new content. -/
theorem record_write_atomic_rename (dumpAll : List Rec → String) (dumpItem : Rec → String)
    (jsonFile : String) (data : List Rec) (fs : Fs) :
    runOps fs (jsonWriteOps dumpAll dumpItem jsonFile data) jsonFile
        = some (jsonFinalContent dumpAll dumpItem data) ∧
    (∀ n, runOps fs ((jsonWriteOps dumpAll dumpItem jsonFile data).take n) jsonFile = fs jsonFile ∨
      runOps fs ((jsonWriteOps dumpAll dumpItem jsonFile data).take n) jsonFile
        = some (jsonFinalContent dumpAll dumpItem data)) ∧
    (∀ op ∈ jsonWriteOps dumpAll dumpItem jsonFile data, writesInPlace jsonFile op = false) := by
  by_cases hlen : data.length > 1000
  · -- streaming path
    have hshape : streamingWriteOps dumpItem jsonFile data =
        (FsOp.write (tmpPath jsonFile) "" ::
          (("[\n" :: streamingPieces dumpItem data) ++ ["\n]"]).map
            (FsOp.append (tmpPath jsonFile))) ++ [FsOp.rename (tmpPath jsonFile) jsonFile] := by
      simp [streamingWriteOps]
    have hA : ∀ op ∈ FsOp.write (tmpPath jsonFile) "" ::
        (("[\n" :: streamingPieces dumpItem data) ++ ["\n]"]).map
          (FsOp.append (tmpPath jsonFile)), opTouches jsonFile op = false := by
      intro op hop
      rcases List.mem_cons.mp hop with h | h
      · subst h; simpa [opTouches] using tmpPath_ne jsonFile
      · obtain ⟨piece, _, rfl⟩ := List.mem_map.mp h
        simpa [opTouches] using tmpPath_ne jsonFile
    have htmp : runOps fs (FsOp.write (tmpPath jsonFile) "" ::
        (("[\n" :: streamingPieces dumpItem data) ++ ["\n]"]).map
          (FsOp.append (tmpPath jsonFile))) (tmpPath jsonFile)
        = some (streamedContent dumpItem data) := by
      have hstart : applyOp fs (FsOp.write (tmpPath jsonFile) "") (tmpPath jsonFile) = some "" := by
        simp [applyOp]
      calc runOps fs (FsOp.write (tmpPath jsonFile) "" ::
            (("[\n" :: streamingPieces dumpItem data) ++ ["\n]"]).map
              (FsOp.append (tmpPath jsonFile))) (tmpPath jsonFile)
          = runOps (applyOp fs (FsOp.write (tmpPath jsonFile) ""))
              ((("[\n" :: streamingPieces dumpItem data) ++ ["\n]"]).map
                (FsOp.append (tmpPath jsonFile))) (tmpPath jsonFile) := rfl
        _ = some ("" ++ concatAll (("[\n" :: streamingPieces dumpItem data) ++ ["\n]"])) :=
            runOps_appendPieces (tmpPath jsonFile) _ _ "" hstart
        _ = some (streamedContent dumpItem data) := by
            rw [String.empty_append]; rfl
    obtain ⟨hfull, hpre⟩ := staged_write jsonFile (streamedContent dumpItem data) _ fs hA htmp
    rw [← hshape] at hfull hpre
    simp only [jsonWriteOps, jsonFinalContent, if_pos hlen]
    refine ⟨hfull, hpre, ?_⟩
    intro op hop
    rw [hshape] at hop
    rcases List.mem_append.mp hop with h | h
    · exact writesInPlace_of_touches jsonFile op (hA op h)
    · have : op = FsOp.rename (tmpPath jsonFile) jsonFile := by simpa using h
      subst this
      simp [writesInPlace]
  · -- plain atomic path
    have hshape : atomicWriteOps jsonFile (dumpAll data) =
        [FsOp.write (tmpPath jsonFile) (dumpAll data)] ++
          [FsOp.rename (tmpPath jsonFile) jsonFile] := by
      simp [atomicWriteOps]
    have hA : ∀ op ∈ [FsOp.write (tmpPath jsonFile) (dumpAll data)],
        opTouches jsonFile op = false := by
      intro op hop
      have : op = FsOp.write (tmpPath jsonFile) (dumpAll data) := by simpa using hop
      subst this
      simpa [opTouches] using tmpPath_ne jsonFile
    have htmp : runOps fs [FsOp.write (tmpPath jsonFile) (dumpAll data)] (tmpPath jsonFile)
        = some (dumpAll data) := by
      simp [runOps, applyOp]
    obtain ⟨hfull, hpre⟩ := staged_write jsonFile (dumpAll data) _ fs hA htmp
    rw [← hshape] at hfull hpre
    simp only [jsonWriteOps, jsonFinalContent, if_neg hlen]
    refine ⟨hfull, hpre, ?_⟩
    intro op hop
    rw [hshape] at hop
    rcases List.mem_append.mp hop with h | h
    · exact writesInPlace_of_touches jsonFile op (hA op h)
    · have : op = FsOp.rename (tmpPath jsonFile) jsonFile := by simpa using h
      subst this
      simp [writesInPlace]

/-- Witness for C2: on a one-record store the write trace leaves the target
holding the complete new content, and the temporary-file write is not an
in-place write of the target. -/
theorem record_write_atomic_rename_witness :
    runOps (fun _ => some "old")
        (jsonWriteOps (fun _ => "NEW") (fun _ => "item") "/x/packages.json" [rFooLib])
        "/x/packages.json"
      = some (jsonFinalContent (fun _ => "NEW") (fun _ => "item") [rFooLib]) ∧
    writesInPlace "/x/packages.json"
        (FsOp.write (tmpPath "/x/packages.json") "NEW") = false := by
  have h := record_write_atomic_rename (fun _ => "NEW") (fun _ => "item")
    "/x/packages.json" [rFooLib] (fun _ => some "old")
  exact ⟨h.1, h.2.2 _ (by decide)⟩

/-! ## Properties of query -/

theorem sinceFilter_all_parse (d : PyDate) :
    ∀ (l : List Rec), (∀ e ∈ l, (pyFromIsoDate e.date).isSome) →
      sinceFilter d l = some (l.filter (sinceMatches d)) := by
  intro l
  induction l with
  | nil => intro _; rfl
  | cons e es ih =>
    intro h
    obtain ⟨ed, hed⟩ := Option.isSome_iff_exists.mp (h e (List.mem_cons_self e es))
    have hrest := ih fun x hx => h x (List.mem_cons_of_mem e hx)
    simp only [sinceFilter, hed, hrest, Option.bind_eq_bind, Option.some_bind]
    have hm : sinceMatches d e = d.le ed := by simp [sinceMatches, hed]
    cases hle : d.le ed with
    | true => simp [List.filter_cons, hm, hle]
    | false => simp [List.filter_cons, hm, hle]

theorem sinceFilter_none_of_bad (d : PyDate) :
    ∀ (l : List Rec), (∃ e ∈ l, pyFromIsoDate e.date = none) →
      sinceFilter d l = none := by
  intro l
  induction l with
  | nil => intro h; simp at h
  | cons e es ih =>
    intro h
    cases hed : pyFromIsoDate e.date with
    | none => simp [sinceFilter, hed]
    | some ed =>
      obtain ⟨x, hx, hxbad⟩ := h
      rcases List.mem_cons.mp hx with rfl | hx'
      · rw [hxbad] at hed; cases hed
      · have := ih ⟨x, hx', hxbad⟩
        simp [sinceFilter, hed, this]

theorem bool_and_rotate (a b c : Bool) : ((c && b) && a) = ((a && b) && c) := by
  cases a <;> cases b <;> cases c <;> rfl

/-- **C3 (amended).** Provided every given filter string is non-empty (an
empty string is falsy in Python and disables the filter instead of matching
exactly) and, when `since` is given, every stored record's date parses,
`query` returns exactly the records satisfying all given filters — name
filter as case-insensitive substring, manager filter as exact equality,
`since` as date-on-or-after — in storage order (a sublist of the stored
sequence, oldest first). -/
theorem query_filter_correct (data : List Rec) (nameF managerF : Option String)
    (since : Option PyDate)
    (hn : ∀ n, nameF = some n → n ≠ "")
    (hm : ∀ m, managerF = some m → m ≠ "")
    (hd : ∀ d, since = some d → ∀ e ∈ data, (pyFromIsoDate e.date).isSome) :
    query data nameF managerF since
        = data.filter (fun e => specMatches nameF managerF since e) ∧
    (query data nameF managerF since).Sublist data := by
  suffices h : query data nameF managerF since
      = data.filter (fun e => specMatches nameF managerF since e) by
    refine ⟨h, ?_⟩
    rw [h]
    exact List.filter_sublist data
  rcases nameF with _ | n
  · rcases managerF with _ | m
    · rcases since with _ | d
      · simp [query, queryGo, preFiltered, specMatches]
      · have hparse := hd d rfl
        simp only [query, queryGo, preFiltered]
        rw [sinceFilter_all_parse d data hparse]
        simp [specMatches]
    · have hm' : m ≠ "" := hm m rfl
      rcases since with _ | d
      · simp [query, queryGo, preFiltered, specMatches, hm']
      · have hparse : ∀ e ∈ data.filter (fun e => e.manager = m),
            (pyFromIsoDate e.date).isSome :=
          fun e he => hd d rfl e (List.mem_of_mem_filter he)
        simp only [query, queryGo, preFiltered, if_neg hm']
        rw [sinceFilter_all_parse d _ hparse, List.filter_filter]
        simp only [Option.getD_some, specMatches, Bool.true_and]
        exact List.filter_congr fun e _ => Bool.and_comm _ _
  · have hn' : n ≠ "" := hn n rfl
    rcases managerF with _ | m
    · rcases since with _ | d
      · simp [query, queryGo, preFiltered, specMatches, hn']
      · have hparse : ∀ e ∈ data.filter (fun e => pyIn (pyLower n) (pyLower e.name)),
            (pyFromIsoDate e.date).isSome :=
          fun e he => hd d rfl e (List.mem_of_mem_filter he)
        simp only [query, queryGo, preFiltered, if_neg hn']
        rw [sinceFilter_all_parse d _ hparse, List.filter_filter]
        simp only [Option.getD_some, specMatches, Bool.and_true]
        exact List.filter_congr fun e _ => Bool.and_comm _ _
    · have hm' : m ≠ "" := hm m rfl
      rcases since with _ | d
      · simp only [query, queryGo, preFiltered, if_neg hn', if_neg hm', List.filter_filter,
          Option.getD_some, specMatches, Bool.and_true]
        exact List.filter_congr fun e _ => Bool.and_comm _ _
      · have hparse : ∀ e ∈ (data.filter fun e => pyIn (pyLower n) (pyLower e.name)).filter
            (fun e => e.manager = m), (pyFromIsoDate e.date).isSome :=
          fun e he => hd d rfl e (List.mem_of_mem_filter (List.mem_of_mem_filter he))
        simp only [query, queryGo, preFiltered, if_neg hn', if_neg hm']
        rw [sinceFilter_all_parse d _ hparse, List.filter_filter, List.filter_filter]
        simp only [Option.getD_some, specMatches]
        exact List.filter_congr fun e _ => bool_and_rotate _ _ _

/-- Counterexample to C3 as stated: with the empty string given as manager
filter, `query` skips the filter (Python falsiness) and returns a record
whose manager is `"dnf"`, although exact-match semantics for the given
filter `""` would return nothing. -/
theorem query_filter_empty_manager_cex :
    query [rFooLib] none (some "") none = [rFooLib] ∧
    List.filter (fun e => specMatches none (some "") none e) [rFooLib] = [] ∧
    rFooLib.manager ≠ "" := by
  refine ⟨by decide, by decide, by decide⟩

/-- Witness for C3 (amended): on the three-record store of §8, the name
filter `"foo"` selects exactly the first record. -/
theorem query_filter_correct_witness :
    query [rFooLib, rBarLib, rBazRpm] (some "foo") none none = [rFooLib] := by
  have h := (query_filter_correct [rFooLib, rBarLib, rBazRpm] (some "foo") none none
      (fun n hn => by cases hn; decide) (fun m hm => by cases hm) (fun d hd => by cases hd)).1
  rw [h]
  decide

/-! ## Statistics -/

/-- **C4.** `statistics()` returns the total record count, the number of
records with `removed == false` as `installed`, the number with
`removed == true` as `removed`, the number with `manager == "download"` as
`downloads`, and the effective scope; on the three-record store of §8 it
returns total=3, installed=2, removed=1, downloads=1. -/
theorem statistics_counts (data : List Rec) (scope : String) :
    (getStatistics data scope).total = data.length ∧
    (getStatistics data scope).installed = (data.filter fun e => e.removed = false).length ∧
    (getStatistics data scope).removed = (data.filter fun e => e.removed = true).length ∧
    (getStatistics data scope).downloads = (data.filter fun e => e.manager = "download").length ∧
    (getStatistics data scope).scope = scope ∧
    (getStatistics data scope).installed + (getStatistics data scope).removed = data.length ∧
    getStatistics [rFooLib, rBarLib, rBazRpm] scope
      = { total := 3, installed := 2, removed := 1, downloads := 1, scope := scope } := by
  refine ⟨rfl, ?_, ?_, ?_, rfl, ?_, ?_⟩
  · show data.countP (fun e => !e.removed) = _
    rw [List.countP_eq_length_filter]
    exact congrArg List.length (List.filter_congr fun e _ => by cases e.removed <;> rfl)
  · show data.countP (fun e => e.removed) = _
    rw [List.countP_eq_length_filter]
    exact congrArg List.length (List.filter_congr fun e _ => by cases e.removed <;> rfl)
  · show data.countP (fun e => decide (e.manager = "download")) = _
    rw [List.countP_eq_length_filter]
  · show data.countP (fun e => !e.removed) + data.countP (fun e => e.removed) = data.length
    have h := List.length_eq_countP_add_countP (fun e : Rec => !e.removed) data
    have hcongr : (data.countP fun e => decide (¬(!e.removed) = true))
        = data.countP fun e => e.removed :=
      List.countP_congr fun e _ => by cases e.removed <;> simp
    rw [hcongr] at h
    omega
  · rfl

/-! ## Exception propagation of the public operations -/

/-- **C5 (amended).** `record`, `query` and `statistics` never raise to their
callers for any input, stored content or storage fault: `record` absorbs the
failure (the event is lost with a logged error), `query` degrades to the
empty result, and `statistics` degrades to all-zero counts with the
effective scope still populated.  Initialization (`open`), by contrast, is
**not** protected — see the counterexample — so the claim's inclusion of
`open`/initialize does not hold. -/
theorem engine_public_ops_no_raise (ta : Bool) (f : IoFaults) (st : EngineState)
    (name manager action date scope : String) (version : Option String)
    (metadata : List (String × (String ⊕ Int))) (nameF managerF : Option String)
    (since : Option PyDate) :
    (∃ r, recordOp ta f st name manager action date scope version metadata = Except.ok r) ∧
    (∃ r, queryOp f st nameF managerF since = Except.ok r) ∧
    (∃ s, statsOp f st scope = Except.ok s) ∧
    statsOp f { jsonFile := JFile.bad, tomlFile := st.tomlFile } scope
      = Except.ok (zeroStats scope) ∧
    queryOp f { jsonFile := JFile.bad, tomlFile := st.tomlFile } nameF managerF since
      = Except.ok [] := by
  refine ⟨?_, ⟨_, rfl⟩, ⟨_, rfl⟩, ?_, ?_⟩
  · unfold recordOp
    by_cases h : pyStrip name = ""
    · rw [if_pos h]; exact ⟨_, rfl⟩
    · rw [if_neg h]; exact ⟨_, rfl⟩
  · unfold statsOp loadJsonUnguarded
    cases hf : f.readFault <;>
      simp [hf, throw, throwThe, MonadExceptOf.throw, Except.map]
  · unfold queryOp loadJsonUnguarded
    cases hf : f.readFault <;>
      simp [hf, throw, throwThe, MonadExceptOf.throw, Except.map, Bind.bind, Except.bind]

/-- Counterexample to C5 as stated: a storage fault during directory
creation makes initialization (`__init__` / `_ensure_directories`, which has
no enclosing `try/except`) raise `OSError` to its caller. -/
theorem init_mkdir_fault_raises :
    ensureDirectoriesOp { mkdirFault := true } { jsonFile := JFile.empty, tomlFile := [] }
      = Except.error PyErr.osError := rfl

/-! ## Validation of the package name -/

/-- **C6.** For every event whose name is empty or whitespace-only after
trimming, `record` is a no-op: it emits only the diagnostic warning, raises
nothing, and leaves both the structured store and the mirror store
unchanged, under every fault configuration. -/
theorem record_invalid_name_noop (ta : Bool) (st : Store)
    (name manager action date scope : String) (version : Option String)
    (metadata : List (String × (String ⊕ Int))) (h : pyStrip name = "") :
    logPackage ta st name manager action date scope version metadata
      = (st, ["Warning: Invalid package name: " ++ name]) ∧
    ∀ (f : IoFaults) (est : EngineState),
      recordOp ta f est name manager action date scope version metadata
        = Except.ok (est, ["Warning: Invalid package name: " ++ name]) := by
  constructor
  · simp [logPackage, h]
  · intro f est
    simp [recordOp, h]

/-- Witness for C6: a whitespace-only name leaves the empty store untouched
and only warns. -/
theorem record_invalid_name_noop_witness :
    logPackage true emptyStore "   " "dnf" "install" "2024-01-01T00:00:00" "user" none []
      = (emptyStore, ["Warning: Invalid package name: " ++ "   "]) :=
  (record_invalid_name_noop true emptyStore "   " "dnf" "install" "2024-01-01T00:00:00"
    "user" none [] (by decide)).1

/-! ## Mirror store regeneration -/

theorem chunkRecords_tomlChunks : ∀ (data : List Rec), chunkRecords (tomlChunks data) = data := by
  intro data
  induction data with
  | nil => rfl
  | cons r rs ih =>
    cases hr : r.removed <;>
      simp [tomlChunks, chunkRecords, chunksOfRec, hr, List.filterMap_append] at ih ⊢ <;>
      simpa [tomlChunks, chunkRecords] using ih

/-- **C7.** After every completed `record` write the mirror store is fully
regenerated from the updated in-memory sequence (independently of its prior
content, never incrementally appended), serializes exactly the same logical
record sequence as the structured store, places the marker chunk precisely
before each record whose `removed` flag is true, and when the mirror
serializer is unavailable the mirror is left untouched while the
structured-store write still succeeds. -/
theorem mirror_regenerated (st : Store) (name manager action date scope : String)
    (version : Option String) (metadata : List (String × (String ⊕ Int)))
    (h : pyStrip name ≠ "") :
    ((logPackage true st name manager action date scope version metadata).1).toml
      = tomlChunks ((logPackage true st name manager action date scope version metadata).1).json ∧
    chunkRecords ((logPackage true st name manager action date scope version metadata).1).toml
      = ((logPackage true st name manager action date scope version metadata).1).json ∧
    (∀ data, tomlChunks data
      = data.flatMap fun r =>
          if r.removed then [Chunk.marker, Chunk.record r] else [Chunk.record r]) ∧
    (∀ oldToml,
      ((logPackage true { json := st.json, toml := oldToml }
          name manager action date scope version metadata).1).toml
        = ((logPackage true st name manager action date scope version metadata).1).toml) ∧
    ((logPackage false st name manager action date scope version metadata).1).toml = st.toml ∧
    ((logPackage false st name manager action date scope version metadata).1).json
      = ((logPackage true st name manager action date scope version metadata).1).json := by
  refine ⟨?_, ?_, ?_, ?_, ?_, ?_⟩
  · simp [logPackage, h]
  · simp [logPackage, h, chunkRecords_tomlChunks]
  · intro data
    simp only [tomlChunks]
    congr 1
    funext r
    cases hr : r.removed <;> simp [chunksOfRec, hr]
  · intro oldToml
    simp [logPackage, h]
  · simp [logPackage, h]
  · simp [logPackage, h]

/-- Witness for C7: recording a removal into the empty store leaves the
mirror equal to the full regeneration of the updated sequence. -/
theorem mirror_regenerated_witness :
    ((logPackage true emptyStore "pkg" "mgrX" "remove" "2024-01-02T00:00:00"
        "user" none []).1).toml
      = tomlChunks ((logPackage true emptyStore "pkg" "mgrX" "remove" "2024-01-02T00:00:00"
          "user" none []).1).json :=
  (mirror_regenerated emptyStore "pkg" "mgrX" "remove" "2024-01-02T00:00:00"
    "user" none [] (by decide)).1

/-! ## Scope resolution -/

/-- **C8.** Requesting system scope without root privileges yields effective
scope `user` with a logged warning (never silent), and the storage root
derived from the effective scope is the user-scope root rather than the
system one; with root privileges the requested system scope is kept. -/
theorem scope_downgrade (euid : Nat) (home requested : String) :
    (euid ≠ 0 →
      validateScope "system" euid =
        ("user",
          ["System scope selected but process lacks root privileges, falling back to user scope."]) ∧
      (validateScope "system" euid).2 ≠ [] ∧
      dataDirFor (validateScope "system" euid).1 home = home ++ "/.local/share/prez-pkglog") ∧
    validateScope "system" 0 = ("system", []) ∧
    (requested ≠ "system" → validateScope requested euid = (requested, [])) ∧
    dataDirFor "user" home = home ++ "/.local/share/prez-pkglog" ∧
    dataDirFor "system" home = "/var/log/prez-pkglog" := by
  refine ⟨?_, ?_, ?_, ?_, ?_⟩
  · intro h
    refine ⟨?_, ?_, ?_⟩ <;> simp [validateScope, dataDirFor, h]
  · simp [validateScope]
  · intro h
    simp [validateScope, h]
  · simp [dataDirFor]
  · simp [dataDirFor]

/-- Witness for C8: effective uid 1000 requesting system scope is downgraded
to user scope with a warning, and the storage root is the user one. -/
theorem scope_downgrade_witness :
    validateScope "system" 1000 =
      ("user",
        ["System scope selected but process lacks root privileges, falling back to user scope."]) ∧
    dataDirFor (validateScope "system" 1000).1 "/home/prez"
      = "/home/prez" ++ "/.local/share/prez-pkglog" := by
  have h := (scope_downgrade 1000 "/home/prez" "system").1 (by decide)
  exact ⟨h.1, h.2.2⟩

/-! ## Downloads monitor -/

theorem drop_takeWhile_length {α : Type} (p : α → Bool) :
    ∀ l : List α, l.drop (l.takeWhile p).length = l.dropWhile p := by
  intro l
  induction l with
  | nil => rfl
  | cons a as ih =>
    cases hp : p a <;> simp [List.takeWhile_cons, List.dropWhile_cons, hp, ih]

theorem dropWhile_head_not {α : Type} (p : α → Bool) :
    ∀ (l : List α) (x : α) (xs : List α), l.dropWhile p = x :: xs → p x = false := by
  intro l
  induction l with
  | nil => intro x xs h; cases h
  | cons a as ih =>
    intro x xs h
    rw [List.dropWhile_cons] at h
    cases hp : p a with
    | true => rw [if_pos (by simp [hp])] at h; exact ih x xs h
    | false =>
      rw [if_neg (by simp [hp])] at h
      cases h
      exact hp

theorem pathSuffixL_dot_mem (nm : List Char) (h : pathSuffixL nm ≠ []) : '.' ∈ nm := by
  unfold pathSuffixL at h
  rcases hrest : nm.reverse.drop ((nm.reverse.takeWhile (· ≠ '.')).length) with _ | ⟨d, before⟩
  · rw [hrest] at h
    simp at h
  · have heq : nm.reverse.drop ((nm.reverse.takeWhile (· ≠ '.')).length)
        = nm.reverse.dropWhile (· ≠ '.') := drop_takeWhile_length _ nm.reverse
    have hd : d = '.' := by
      rw [heq] at hrest
      have := dropWhile_head_not _ _ _ _ hrest
      simpa using this
    subst hd
    have hmem : '.' ∈ nm.reverse.drop ((nm.reverse.takeWhile (· ≠ '.')).length) := by
      rw [hrest]
      exact List.mem_cons_self _ _
    have := List.mem_of_mem_drop hmem
    simpa using this

theorem pyStripL_ne_nil (l : List Char) (c : Char) (hc : c ∈ l) (hw : isPyWs c = false) :
    pyStripL l ≠ [] := by
  intro h
  unfold pyStripL at h
  have h1 : (l.dropWhile isPyWs).reverse.dropWhile isPyWs = [] := by
    simpa using h
  have h2 : ∀ x ∈ (l.dropWhile isPyWs).reverse, isPyWs x = true :=
    List.dropWhile_eq_nil_iff.mp h1
  have h3 : ∀ x ∈ l.dropWhile isPyWs, isPyWs x = true :=
    fun x hx => h2 x (List.mem_reverse.mpr hx)
  have h4 : c ∈ l.takeWhile isPyWs ++ l.dropWhile isPyWs := by
    rw [List.takeWhile_append_dropWhile]
    exact hc
  rcases List.mem_append.mp h4 with h5 | h5
  · have := List.mem_takeWhile_imp h5
    rw [hw] at this
    cases this
  · have := h3 c h5
    rw [hw] at this
    cases this

/-- A file whose (lower-cased) suffix belongs to the configured allow-set has
a name that survives `log_package`'s emptiness validation: the suffix
contains a dot, the dot occurs in the file name, and a dot is not
whitespace. -/
theorem download_name_valid (extStr filePath : String)
    (h : pyLower (pathSuffix filePath) ∈ parseExtensions extStr) :
    pyStrip (pathName filePath) ≠ "" := by
  have hne : pathSuffixL (pathNameL filePath.data) ≠ [] := by
    intro hempty
    have hdata : (pathSuffix filePath).data = [] := hempty
    have hlow : pyLower (pathSuffix filePath) = "" := by
      show String.mk (lowerL (pathSuffix filePath).data) = ""
      rw [hdata]
      rfl
    rw [hlow] at h
    obtain ⟨piece, _, hpe⟩ := List.mem_map.mp h
    have := congrArg String.length hpe
    rw [String.length_append] at this
    have hdotlen : ("." : String).length = 1 := rfl
    have hemptylen : ("" : String).length = 0 := rfl
    omega
  have hdot : '.' ∈ pathNameL filePath.data := pathSuffixL_dot_mem _ hne
  intro hstrip
  have hnil : pyStripL (pathNameL filePath.data) = [] := by
    have := congrArg String.data hstrip
    simpa using this
  exact pyStripL_ne_nil _ '.' hdot (by decide) hnil

/-- **C9 (amended).** The watch adapter lower-cases the created file's
extension and tests membership in the configured allow-set taken verbatim
(the configured entries are *not* lower-cased, so matching is
case-insensitive only on the file side; with the default all-lower-case
configuration this behaves case-insensitively).  On a match it records an
event with manager `"download"`, action `"install"`, and metadata holding
the file path, the stat size (0 with a logged warning when the size cannot
be obtained), and the lower-cased file type; otherwise nothing is
recorded. -/
theorem download_ext_filter (ta : Bool) (extStr filePath : String) (statSize : Option Nat)
    (st : Store) (date scope : String) :
    (pyLower (pathSuffix filePath) ∈ parseExtensions extStr →
      logDownload ta extStr filePath statSize st date scope
        = ({ json := st.json ++ [downloadEntry filePath date scope statSize]
             toml := if ta then
                 tomlChunks (st.json ++ [downloadEntry filePath date scope statSize])
               else st.toml },
           if statSize.isNone then ["Could not get file size for " ++ filePath] else []) ∧
      (downloadEntry filePath date scope statSize).manager = "download" ∧
      (downloadEntry filePath date scope statSize).action = "install" ∧
      (downloadEntry filePath date scope statSize).metadata
        = [("file_path", Sum.inl filePath),
           ("file_size", Sum.inr ((statSize.getD 0 : Nat) : Int)),
           ("file_type", Sum.inl (pyLower (pathSuffix filePath)))]) ∧
    (pyLower (pathSuffix filePath) ∉ parseExtensions extStr →
      logDownload ta extStr filePath statSize st date scope = (st, [])) := by
  constructor
  · intro h
    have hname := download_name_valid extStr filePath h
    refine ⟨?_, rfl, rfl, rfl⟩
    have hrm : (mkEntry (pathName filePath) "download" "install" date scope none
        [("file_path", Sum.inl filePath),
         ("file_size", Sum.inr ((statSize.getD 0 : Nat) : Int)),
         ("file_type", Sum.inl (pyLower (pathSuffix filePath)))]).removed = false := rfl
    simp [logDownload, logPackage, h, hname, upsert, hrm, downloadEntry]
  · intro h
    unfold logDownload
    rw [if_neg h]

/-- Counterexample to C9 as stated: the configured entry `".EXE"` matches the
file suffix `".exe"` case-insensitively, yet the adapter records nothing,
because only the file side is lower-cased. -/
theorem download_ext_case_cex :
    ((parseExtensions ".EXE").any fun e => pyLower e = pyLower (pathSuffix "/d/setup.exe")) = true ∧
    logDownload true ".EXE" "/d/setup.exe" (some 5) emptyStore "2024-01-01T00:00:00" "user"
      = (emptyStore, []) := by
  exact ⟨by decide, by decide⟩

/-- Witness for C9 (amended): an `".rpm"` download (upper-case on disk,
lower-cased by the adapter) is recorded with manager `"download"`. -/
theorem download_ext_filter_witness :
    logDownload true ".rpm, .deb" "/home/u/Downloads/pkg.RPM" (some 5) emptyStore
      "2024-01-01T00:00:00" "user"
      = ({ json := [downloadEntry "/home/u/Downloads/pkg.RPM" "2024-01-01T00:00:00" "user" (some 5)]
           toml := tomlChunks [downloadEntry "/home/u/Downloads/pkg.RPM" "2024-01-01T00:00:00"
             "user" (some 5)] }, []) := by
  have h := (download_ext_filter true ".rpm, .deb" "/home/u/Downloads/pkg.RPM" (some 5)
    emptyStore "2024-01-01T00:00:00" "user").1 (by decide)
  exact h.1

/-! ## Malformed dates under the since filter -/

/-- **C10 (amended).** When `query` is called with a `since` filter and some
record **surviving the name/manager filters** has a missing or unparseable
date, the whole result is voided: the query returns the empty list, dropping
every well-formed matching record as well; the same query without `since`
still returns the filtered records.  (If every malformed-date record is
excluded by the name/manager filters first, the `since` query is unaffected
— see the counterexample to the claim as stated.) -/
theorem query_malformed_date_voids (data : List Rec) (nameF managerF : Option String)
    (d : PyDate)
    (h : ∃ e ∈ preFiltered data nameF managerF, pyFromIsoDate e.date = none) :
    query data nameF managerF (some d) = [] ∧
    query data nameF managerF none = preFiltered data nameF managerF := by
  constructor
  · show (sinceFilter d (preFiltered data nameF managerF)).getD [] = []
    rw [sinceFilter_none_of_bad d _ h]
    rfl
  · rfl

/-- Counterexample to C10 as stated: the store holds a malformed-date record
(`rBadDate`), yet a `since` query whose name filter excludes that record
returns the well-formed match instead of the empty list. -/
theorem query_malformed_date_cex :
    pyFromIsoDate rBadDate.date = none ∧
    query [rFooLib, rBadDate] (some "foo") none (some { year := 2024, month := 1, day := 1 })
      = [rFooLib] ∧
    query [rFooLib, rBadDate] (some "foo") none (some { year := 2024, month := 1, day := 1 })
      ≠ [] := by
  exact ⟨by decide, by decide, by decide⟩

/-- Witness for C10 (amended): with no name/manager filter, the malformed
record survives into the `since` comprehension and voids the result, while
the same query without `since` returns both records. -/
theorem query_malformed_date_voids_witness :
    query [rFooLib, rBadDate] none none (some { year := 2024, month := 1, day := 1 }) = [] ∧
    query [rFooLib, rBadDate] none none none = preFiltered [rFooLib, rBadDate] none none :=
  query_malformed_date_voids [rFooLib, rBadDate] none none
    { year := 2024, month := 1, day := 1 } ⟨rBadDate, by decide, by decide⟩

end PkgLog
